import Mathlib

/-!
Verification of the `binary-source` pipeline (src/main.rs).

The program resolves a cargo bin target from workspace metadata, drives an
external release build (and an optional `upx` compression pass), then embeds
the produced binary as base64 text into a fixed Rust or Python launcher
template, substituting three placeholder tokens exactly once each.

Strings are modelled as `List Char`, bytes as `Nat` (< 256), machine words as
`Nat` reduced mod 2^32 where the source wraps.  External collaborators
(the cargo metadata resolver, subprocesses, the filesystem) are modelled by
explicit inputs (`Metadata`, `ExtWorld`); subprocess invocations are recorded
as events so that "stage X was never invoked" is statable.
-/

namespace BinarySource

/-- Model of Rust `str::is_char_boundary`-free `str::replacen(pat, to, 1)`:
replace only the leftmost occurrence of `pat` (the empty pattern matches at
position 0), leaving the rest of the string untouched.  Mirrors the calls at
src/main.rs:179-181. -/
def replacen1 (pat r : List Char) : List Char → List Char
  | [] => if pat.isEmpty then r else []
  | c :: rest =>
    if pat.isPrefixOf (c :: rest) then r ++ (c :: rest).drop pat.length
    else c :: replacen1 pat r rest

/-- Whether `pat` occurs as a contiguous substring of `s` (Boolean, executable). -/
def occursInB (pat : List Char) : List Char → Bool
  | [] => pat.isEmpty
  | s@(_ :: rest) => pat.isPrefixOf s || occursInB pat rest

/-- The `\x7b\x7bBINARY\x7d\x7d` placeholder token (src/main.rs:179). -/
def tokB : List Char := "\x7b\x7bBINARY\x7d\x7d".toList

/-- The `\x7b\x7bNAME\x7d\x7d` placeholder token (src/main.rs:180). -/
def tokN : List Char := "\x7b\x7bNAME\x7d\x7d".toList

/-- The `\x7b\x7bSOURCE_CODE\x7d\x7d` placeholder token (src/main.rs:181). -/
def tokS : List Char := "\x7b\x7bSOURCE_CODE\x7d\x7d".toList

/-- The template substitution chain of src/main.rs:178-181: first the payload
for the BINARY token, then the launcher-internal name for the NAME token, then
the (already trimmed) source text for the SOURCE_CODE token, each replaced
once (`replacen(_, _, 1)`). -/
def substitute (t p n s : List Char) : List Char :=
  replacen1 tokS s (replacen1 tokN n (replacen1 tokB p t))

/-- Rust `char::is_whitespace`: the Unicode White_Space code points. -/
def rustIsWhitespace (c : Char) : Bool :=
  ['\x09', '\x0a', '\x0b', '\x0c', '\x0d', '\x20', '\u0085', '\u00A0', '\u1680',
   '\u2000', '\u2001', '\u2002', '\u2003', '\u2004', '\u2005', '\u2006',
   '\u2007', '\u2008', '\u2009', '\u200A', '\u2028', '\u2029', '\u202F',
   '\u205F', '\u3000'].contains c

/-- Rust `str::trim_end`: drop trailing whitespace (src/main.rs:181). -/
def rustTrimEnd (s : List Char) : List Char :=
  (s.reverse.dropWhile rustIsWhitespace).reverse

/-- Rust `str::split(sep)` on a single separator char: splits into (possibly
empty) components; `split` of the empty string yields one empty component. -/
def splitChar (sep : Char) : List Char → List (List Char)
  | [] => [[]]
  | c :: rest =>
    if c = sep then [] :: splitChar sep rest
    else
      match splitChar sep rest with
      | [] => [[c]]
      | g :: gs => (c :: g) :: gs

/-- Model of `camino::Utf8PathBuf::push` (hence `Utf8Path::join`) on Unix: an absolute
component replaces the accumulated path; otherwise a `/` separator is inserted
unless the buffer is empty or already ends in `/`. -/
def pathJoin (base p : List Char) : List Char :=
  if p.head? = some '/' then p
  else if base = [] then p
  else if base.getLast? = some '/' then base ++ p
  else base ++ '/' :: p

/-! ### base64 (the `data_encoding` BASE64 / BASE64_NOPAD schemes)

`BASE64` is canonical padded RFC 4648 base64, `BASE64_NOPAD` the same without
the `=` padding characters.  The encoder below is the scheme the source
invokes through `data_encoding` (src/main.rs:163-167); the decoder is the
scheme's inverse (the decode happens only in the generated launcher, outside
this repository), including the canonical-trailing-bits checks. -/

def b64Alphabet : List Char :=
  "ABCDEFGHIJKLMNOPQRSTUVWXYZabcdefghijklmnopqrstuvwxyz0123456789+/".toList

def b64char (n : Nat) : Char := b64Alphabet.getD n 'A'

def lookupIdx (c : Char) : List Char → Option Nat
  | [] => none
  | x :: xs => if x = c then some 0 else (lookupIdx c xs).map (· + 1)

def b64val (c : Char) : Option Nat := lookupIdx c b64Alphabet

def base64EncodeNopad : List Nat → List Char
  | [] => []
  | [a] => [b64char (a / 4), b64char (a % 4 * 16)]
  | [a, b] => [b64char (a / 4), b64char (a % 4 * 16 + b / 16), b64char (b % 16 * 4)]
  | a :: b :: c :: rest =>
    b64char (a / 4) :: b64char (a % 4 * 16 + b / 16) :: b64char (b % 16 * 4 + c / 64)
      :: b64char (c % 64) :: base64EncodeNopad rest

def base64Encode (bs : List Nat) : List Char :=
  base64EncodeNopad bs ++ List.replicate ((3 - bs.length % 3) % 3) '='

/-- Modelled from the spec: the unpadded-base64 decoder of the generated Rust
launcher (the repository file data/binary_runner.rs.txt is not under src/);
the inverse of the scheme named in spec 4.4 step 4, with canonical
trailing-bit checks. -/
def base64DecodeNopad : List Char → Option (List Nat)
  | [] => some []
  | [_] => none
  | [c1, c2] =>
    match b64val c1, b64val c2 with
    | some v1, some v2 => if v2 % 16 = 0 then some [v1 * 4 + v2 / 16] else none
    | _, _ => none
  | [c1, c2, c3] =>
    match b64val c1, b64val c2, b64val c3 with
    | some v1, some v2, some v3 =>
      if v3 % 4 = 0 then some [v1 * 4 + v2 / 16, v2 % 16 * 16 + v3 / 4] else none
    | _, _, _ => none
  | c1 :: c2 :: c3 :: c4 :: rest =>
    match b64val c1, b64val c2, b64val c3, b64val c4, base64DecodeNopad rest with
    | some v1, some v2, some v3, some v4, some tl =>
      some ((v1 * 4 + v2 / 16) :: (v2 % 16 * 16 + v3 / 4) :: (v3 % 4 * 64 + v4) :: tl)
    | _, _, _, _, _ => none

def dropTrailing (c : Char) (s : List Char) : List Char :=
  (s.reverse.dropWhile (· == c)).reverse

/-- Modelled from the spec: the padded-base64 decoder of the generated Python
launcher (the repository file data/binary_runner.py.txt is not under src/):
length must be a multiple of 4 with at most two trailing pad characters. -/
def base64Decode (s : List Char) : Option (List Nat) :=
  if s.length % 4 = 0 ∧ s.length - (dropTrailing '=' s).length ≤ 2 then
    base64DecodeNopad (dropTrailing '=' s)
  else none

/-! ### SHA-256 (the `sha2::Sha256` digest invoked at src/main.rs:168) -/

def w32 (n : Nat) : Nat := n % 4294967296

def rotr32 (x n : Nat) : Nat := w32 ((x >>> n) ||| (x <<< (32 - n)))

def shaCh (x y z : Nat) : Nat := (x &&& y) ^^^ ((x ^^^ 4294967295) &&& z)

def shaMaj (x y z : Nat) : Nat := (x &&& y) ^^^ (x &&& z) ^^^ (y &&& z)

def bigSigma0 (x : Nat) : Nat := rotr32 x 2 ^^^ rotr32 x 13 ^^^ rotr32 x 22

def bigSigma1 (x : Nat) : Nat := rotr32 x 6 ^^^ rotr32 x 11 ^^^ rotr32 x 25

def smallSigma0 (x : Nat) : Nat := rotr32 x 7 ^^^ rotr32 x 18 ^^^ (x >>> 3)

def smallSigma1 (x : Nat) : Nat := rotr32 x 17 ^^^ rotr32 x 19 ^^^ (x >>> 10)

/-- FIPS 180-4 round constants, written in decimal. -/
def shaK : List Nat :=
  [1116352408, 1899447441, 3049323471, 3921009573,
   961987163, 1508970993, 2453635748, 2870763221,
   3624381080, 310598401, 607225278, 1426881987,
   1925078388, 2162078206, 2614888103, 3248222580,
   3835390401, 4022224774, 264347078, 604807628,
   770255983, 1249150122, 1555081692, 1996064986,
   2554220882, 2821834349, 2952996808, 3210313671,
   3336571891, 3584528711, 113926993, 338241895,
   666307205, 773529912, 1294757372, 1396182291,
   1695183700, 1986661051, 2177026350, 2456956037,
   2730485921, 2820302411, 3259730800, 3345764771,
   3516065817, 3600352804, 4094571909, 275423344,
   430227734, 506948616, 659060556, 883997877,
   958139571, 1322822218, 1537002063, 1747873779,
   1955562222, 2024104815, 2227730452, 2361852424,
   2428436474, 2756734187, 3204031479, 3329325298]

structure Hash8 where
  h0 : Nat
  h1 : Nat
  h2 : Nat
  h3 : Nat
  h4 : Nat
  h5 : Nat
  h6 : Nat
  h7 : Nat
deriving DecidableEq

/-- FIPS 180-4 initial hash values, written in decimal. -/
def shaInit : Hash8 :=
  ⟨1779033703, 3144134277, 1013904242, 2773480762,
   1359893119, 2600822924, 528734635, 1541459225⟩

def bytesToWords : List Nat → List Nat
  | b0 :: b1 :: b2 :: b3 :: rest =>
    (b0 * 16777216 + b1 * 65536 + b2 * 256 + b3) :: bytesToWords rest
  | _ => []

def extendSchedule : Nat → List Nat → List Nat
  | 0, w => w
  | n + 1, w =>
    let l := w.length
    extendSchedule n
      (w ++ [w32 (smallSigma1 (w.getD (l - 2) 0) + w.getD (l - 7) 0 +
                  smallSigma0 (w.getD (l - 15) 0) + w.getD (l - 16) 0)])

def shaStep (st : Hash8) (wk : Nat × Nat) : Hash8 :=
  let t1 := w32 (st.h7 + bigSigma1 st.h4 + shaCh st.h4 st.h5 st.h6 + wk.2 + wk.1)
  let t2 := w32 (bigSigma0 st.h0 + shaMaj st.h0 st.h1 st.h2)
  ⟨w32 (t1 + t2), st.h0, st.h1, st.h2, w32 (st.h3 + t1), st.h4, st.h5, st.h6⟩

def shaCompress (hv : Hash8) (block : List Nat) : Hash8 :=
  let st := ((extendSchedule 48 (bytesToWords block)).zip shaK).foldl shaStep hv
  ⟨w32 (hv.h0 + st.h0), w32 (hv.h1 + st.h1), w32 (hv.h2 + st.h2), w32 (hv.h3 + st.h3),
   w32 (hv.h4 + st.h4), w32 (hv.h5 + st.h5), w32 (hv.h6 + st.h6), w32 (hv.h7 + st.h7)⟩

def processBlocks (hv : Hash8) : List Nat → Hash8
  | [] => hv
  | c :: rest =>
    processBlocks (shaCompress hv ((c :: rest).take 64)) ((c :: rest).drop 64)
termination_by l => l.length
decreasing_by simp [List.length_drop]; omega

def lengthBytes (n : Nat) : List Nat :=
  [n / 72057594037927936 % 256, n / 281474976710656 % 256, n / 1099511627776 % 256,
   n / 4294967296 % 256, n / 16777216 % 256, n / 65536 % 256, n / 256 % 256, n % 256]

def padMessage (msg : List Nat) : List Nat :=
  msg ++ 128 :: (List.replicate ((119 - msg.length % 64) % 64) 0 ++ lengthBytes (8 * msg.length))

def wordBytes (w : Nat) : List Nat :=
  [w / 16777216 % 256, w / 65536 % 256, w / 256 % 256, w % 256]

def sha256 (msg : List Nat) : List Nat :=
  let hv := processBlocks shaInit (padMessage msg)
  wordBytes hv.h0 ++ wordBytes hv.h1 ++ wordBytes hv.h2 ++ wordBytes hv.h3 ++
  wordBytes hv.h4 ++ wordBytes hv.h5 ++ wordBytes hv.h6 ++ wordBytes hv.h7

/-! ### Content identifier and launcher-internal name (src/main.rs:168-174) -/

def hexChar (n : Nat) : Char := "0123456789ABCDEF".toList.getD n '0'

/-- Model of `data_encoding::HEXUPPER.encode`: each byte as two uppercase hex digits. -/
def hexUpperChars (bs : List Nat) : List Char :=
  bs.flatMap fun b => [hexChar (b / 16), hexChar (b % 16)]

/-- src/main.rs:168: `&HEXUPPER.encode(&sha2::Sha256::digest(&bin))[0..8]`. -/
def contentId (bin : List Nat) : List Char := (hexUpperChars (sha256 bin)).take 8

/-- src/main.rs:169-173: `".exe"` exactly when `target.split('-').nth(2) ==
Some("windows")`, else the empty extension. -/
def extFor (target : List Char) : List Char :=
  if (splitChar '-' target).get? 2 = some ("windows".toList) then ".exe".toList else []

/-- src/main.rs:174: `format!("bin\x7bhash\x7d\x7bext\x7d")`. -/
def binName (bin : List Nat) (target : List Char) : List Char :=
  "bin".toList ++ contentId bin ++ extFor target

/-! ### Configuration, metadata model and target resolution -/

/-- Output dialect (src/main.rs:62-67). -/
inductive Language
  | Rust
  | Python
deriving DecidableEq

/-- The encoding selected at src/main.rs:163-166: `BASE64_NOPAD` for Rust,
`BASE64` for Python. -/
def encodeFor : Language → List Nat → List Char
  | Language.Rust, bin => base64EncodeNopad bin
  | Language.Python, bin => base64Encode bin

/-- The matching decoder for each dialect's scheme (see `base64Decode`). -/
def decodeFor : Language → List Char → Option (List Nat)
  | Language.Rust, s => base64DecodeNopad s
  | Language.Python, s => base64Decode s

/-- The CLI configuration (src/main.rs:23-60); paths and strings are char
lists, the parser/defaults are outside the modelled core. -/
structure Config where
  manifest_path : Option (List Char)
  output : List Char
  bin : Option (List Char)
  target : List Char
  use_cross : Bool
  panic_unwind : Bool
  no_opt_size : Bool
  no_upx : Bool
  language : Language
deriving DecidableEq

/-- A buildable unit as described by the `cargo_metadata` collaborator:
`name`, `kind` and `src_path` are the only fields the source reads. -/
structure Target where
  name : List Char
  kind : List (List Char)
  src_path : List Char
deriving DecidableEq

/-- Model of `cargo_metadata::Target::is_bin`: the kind list contains `"bin"`. -/
def Target.is_bin (t : Target) : Bool := t.kind.contains ("bin".toList)

structure Package where
  targets : List Target
  manifest_path : List Char
deriving DecidableEq

/-- The slice of `cargo_metadata::Metadata` the source depends on:
`root_package()` (modelled as an optional package, matching its `Option`
return) and `target_directory`. -/
structure Metadata where
  root : Option Package
  target_directory : List Char
deriving DecidableEq

/-- The predicate of src/main.rs:106: `t.is_bin() && self.bin.as_ref()
.map_or(true, |b| b == &t.name)`. -/
def binMatch (cfg : Config) (t : Target) : Bool :=
  t.is_bin &&
    match cfg.bin with
    | none => true
    | some b => b == t.name

/-- Model of `camino::Utf8Path::parent` for the common `<dir>/Cargo.toml` shape:
drop the final `/`-separated component (the source `expect`s this to exist). -/
def pathParent (p : List Char) : Option (List Char) :=
  let comps := splitChar '/' p
  if comps.length ≤ 1 then none
  else some (List.intercalate ['/'] comps.dropLast)

/-- The resolved target (struct `Ctx`, src/main.rs:81-86). -/
structure Ctx where
  bin_name : List Char
  compile_dir : Option (List Char)
  src_path : List Char
  binary_path : List Char
deriving DecidableEq

/-- Pipeline errors, one constructor per distinct abort site. -/
inductive PipeError
  | noRootPackage
  | noBin
  | buildSpawn
  | buildFailed
  | upxSpawn
  | upxFailed
  | sizeError
  | readBinaryError
deriving DecidableEq

/-- Model of `Config::ctx` (src/main.rs:98-122): pick the root package, `find` the
first bin target matching the optional `--bin` name, and derive the expected
artifact path `target_directory.join(target).join("release").join(name)`. -/
def ctx (cfg : Config) (m : Metadata) : Except PipeError Ctx :=
  match m.root with
  | none => Except.error PipeError.noRootPackage
  | some p =>
    match p.targets.find? (binMatch cfg) with
    | none => Except.error PipeError.noBin
    | some t =>
      Except.ok
        { bin_name := t.name
          compile_dir := pathParent p.manifest_path
          src_path := t.src_path
          binary_path :=
            pathJoin (pathJoin (pathJoin m.target_directory cfg.target) ("release".toList)) t.name }

/-- The full argument vector (program name first) of the build command
constructed in `Config::compile` (src/main.rs:125-142). -/
def compileCmd (cfg : Config) (c : Ctx) : List (List Char) :=
  [(if cfg.use_cross then "cross" else "cargo").toList,
   "+nightly".toList, "build".toList, "--target=".toList ++ cfg.target] ++
  (if cfg.panic_unwind then []
   else
     ["-Zbuild-std=std,panic_abort".toList,
      "-Zbuild-std-features=panic_immediate_abort".toList,
      "--config=profile.release.panic=\"abort\"".toList]) ++
  (if cfg.no_opt_size then []
   else ["--config=profile.release.opt-level=\"s\"".toList]) ++
  ["--config=profile.release.codegen-units=1".toList,
   "--config=profile.release.lto=true".toList,
   "--config=profile.release.strip=true".toList,
   "--release".toList,
   "--bin".toList,
   c.bin_name]

/-- Events recording which external processes the pipeline invoked. -/
inductive ExtEvent
  | buildInvoked (cmd : List (List Char))
  | upxInvoked
deriving DecidableEq

/-- Results of the external world the pipeline consults: subprocess exit
statuses (`none` = the process could not be started), file sizes and file
reads (`none` = the filesystem operation failed). -/
structure ExtWorld where
  buildStatus : Option Bool
  upxStatus : Option Bool
  sizeAfterBuild : Option Nat
  sizeAfterUpx : Option Nat
  binaryBytes : Option (List Nat)
  sourceText : Option (List Char)
deriving DecidableEq

/-- Model of `Config::compile` (src/main.rs:124-146): run the build command, fail when
it cannot be spawned or exits non-zero (`ensure!(status.success())`). -/
def compile (cfg : Config) (c : Ctx) (w : ExtWorld) :
    Except PipeError Unit × List ExtEvent :=
  match w.buildStatus with
  | none => (Except.error PipeError.buildSpawn, [ExtEvent.buildInvoked (compileCmd cfg c)])
  | some false => (Except.error PipeError.buildFailed, [ExtEvent.buildInvoked (compileCmd cfg c)])
  | some true => (Except.ok (), [ExtEvent.buildInvoked (compileCmd cfg c)])

/-- Model of `Config::compress` (src/main.rs:148-155): run `upx --best --lzma -qq`
on the artifact, failing on spawn error or non-zero exit. -/
def compress (w : ExtWorld) : Except PipeError Unit × List ExtEvent :=
  match w.upxStatus with
  | none => (Except.error PipeError.upxSpawn, [ExtEvent.upxInvoked])
  | some false => (Except.error PipeError.upxFailed, [ExtEvent.upxInvoked])
  | some true => (Except.ok (), [ExtEvent.upxInvoked])

/-- The literal fallback of src/main.rs:176. -/
def sourceFallback : List Char := "SOURCE CODE NOT FOUND".toList

/-- The source text used for embedding: `fs::read_to_string(ctx.src_path)
.unwrap_or("SOURCE CODE NOT FOUND".to_string())` (src/main.rs:175-176). -/
def sourceOrFallback (w : ExtWorld) : List Char :=
  match w.sourceText with
  | some s => s
  | none => sourceFallback

/-- Model of `Config::embed` (src/main.rs:157-183).  The two dialect templates are
data files (`data/binary_runner.rs.txt`, `data/binary_runner.py.txt`) pulled
in by `include_str!`; their contents are not part of the source tree, so they
enter as the `templates` argument. -/
def embed (templates : Language → List Char) (cfg : Config) (c : Ctx) (w : ExtWorld) :
    Except PipeError (List Char) :=
  match w.binaryBytes with
  | none => Except.error PipeError.readBinaryError
  | some bin =>
    Except.ok
      (substitute (templates cfg.language) (encodeFor cfg.language bin)
        (binName bin cfg.target) (rustTrimEnd (sourceOrFallback w)))

/-- Model of `Config::gen_binary_source` (src/main.rs:185-203): resolve, compile,
report size, optionally compress and report size, then embed.  The second
component records the external processes invoked, in order. -/
def gen_binary_source (templates : Language → List Char) (cfg : Config)
    (m : Metadata) (w : ExtWorld) :
    Except PipeError (List Char) × List ExtEvent :=
  match ctx cfg m with
  | Except.error e => (Except.error e, [])
  | Except.ok c =>
    match compile cfg c w with
    | (Except.error e, ev) => (Except.error e, ev)
    | (Except.ok _, ev1) =>
      match w.sizeAfterBuild with
      | none => (Except.error PipeError.sizeError, ev1)
      | some _ =>
        if cfg.no_upx then (embed templates cfg c w, ev1)
        else
          match compress w with
          | (Except.error e, ev2) => (Except.error e, ev1 ++ ev2)
          | (Except.ok _, ev2) =>
            match w.sizeAfterUpx with
            | none => (Except.error PipeError.sizeError, ev1 ++ ev2)
            | some _ => (embed templates cfg c w, ev1 ++ ev2)

/-! ### Concrete inputs used by witnesses and counterexamples -/

/-- A configuration with the CLI defaults of src/main.rs:23-60. -/
def wConfig : Config :=
  { manifest_path := none, output := "main.rs".toList, bin := none,
    target := "x86_64-unknown-linux-gnu".toList, use_cross := false,
    panic_unwind := false, no_opt_size := false, no_upx := false,
    language := Language.Rust }

def wBinTarget : Target :=
  { name := "app".toList, kind := ["bin".toList], src_path := "src/main.rs".toList }

def wBinTarget2 : Target :=
  { name := "tool".toList, kind := ["bin".toList], src_path := "src/bin/tool.rs".toList }

def wLibTarget : Target :=
  { name := "app".toList, kind := ["lib".toList], src_path := "src/lib.rs".toList }

def wMetadata : Metadata :=
  { root := some { targets := [wBinTarget, wBinTarget2],
                   manifest_path := "/w/Cargo.toml".toList },
    target_directory := "/w/target".toList }

def wNoBinMetadata : Metadata :=
  { root := some { targets := [wLibTarget], manifest_path := "/w/Cargo.toml".toList },
    target_directory := "/w/target".toList }

def wWorld : ExtWorld :=
  { buildStatus := some true, upxStatus := some true, sizeAfterBuild := some 100,
    sizeAfterUpx := some 50, binaryBytes := some [0], sourceText := none }

def wTemplates : Language → List Char :=
  fun _ => tokB ++ tokN ++ tokS

def wCtx : Ctx :=
  { bin_name := "app".toList, compile_dir := some ("/w".toList),
    src_path := "src/main.rs".toList,
    binary_path := "/w/target/x86_64-unknown-linux-gnu/release/app".toList }

/-- Configuration with an absolute compilation triple (the `--target` value is
an arbitrary user string), exercising the path-join replacement behavior. -/
def cexConfig : Config :=
  { manifest_path := none, output := "main.rs".toList, bin := none,
    target := "/a".toList, use_cross := false, panic_unwind := false,
    no_opt_size := false, no_upx := false, language := Language.Rust }

def cexMetadata : Metadata :=
  { root := some { targets := [wBinTarget], manifest_path := "/w/Cargo.toml".toList },
    target_directory := "/w/target".toList }

/-! ## Helper lemmas about substring occurrence and single replacement -/

theorem isPrefixOf_iff_exists (p s : List Char) :
    p.isPrefixOf s = true ↔ ∃ t, p ++ t = s := by
  induction p generalizing s with
  | nil => simp
  | cons a as ih =>
    cases s with
    | nil => simp
    | cons b bs =>
      simp only [List.isPrefixOf_cons₂, Bool.and_eq_true, beq_iff_eq, ih, List.cons_append,
        List.cons.injEq]
      constructor
      · rintro ⟨rfl, t, rfl⟩; exact ⟨t, rfl, rfl⟩
      · rintro ⟨t, rfl, rfl⟩; exact ⟨rfl, t, rfl⟩

theorem occursInB_iff (pat s : List Char) :
    occursInB pat s = true ↔ ∃ x y, x ++ pat ++ y = s := by
  induction s with
  | nil =>
    simp only [occursInB, List.isEmpty_iff]
    constructor
    · rintro rfl; exact ⟨[], [], rfl⟩
    · rintro ⟨x, y, h⟩
      rcases List.append_eq_nil.mp h with ⟨h1, rfl⟩
      exact (List.append_eq_nil.mp h1).2
  | cons c rest ih =>
    simp only [occursInB, Bool.or_eq_true, isPrefixOf_iff_exists, ih]
    constructor
    · rintro (⟨t, ht⟩ | ⟨x, y, rfl⟩)
      · exact ⟨[], t, by simpa using ht⟩
      · exact ⟨c :: x, y, rfl⟩
    · rintro ⟨x, y, hxy⟩
      cases x with
      | nil => exact Or.inl ⟨y, by simpa using hxy⟩
      | cons d x' =>
        simp only [List.cons_append, List.cons.injEq] at hxy
        exact Or.inr ⟨x', y, hxy.2⟩

theorem occursInB_nil_pat (s : List Char) : occursInB [] s = true := by
  cases s <;> simp [occursInB]

theorem append_eq_append_of_le (p : List Char) :
    ∀ (m t u : List Char), p ++ t = m ++ u → p.length ≤ m.length → ∃ w, p ++ w = m := by
  induction p with
  | nil => intro m t u _ _; exact ⟨m, rfl⟩
  | cons a p' ih =>
    intro m t u h hl
    cases m with
    | nil => simp at hl
    | cons b m' =>
      simp only [List.cons_append, List.cons.injEq] at h
      simp only [List.length_cons, Nat.add_le_add_iff_right] at hl
      obtain ⟨rfl, h2⟩ := h
      obtain ⟨w, hw⟩ := ih m' t u h2 hl
      exact ⟨w, by simp [List.cons_append, hw]⟩

theorem no_early_occ (pat a b : List Char)
    (h : occursInB pat (a ++ pat.dropLast) = false) :
    ∀ x y, a ++ pat ++ b = x ++ pat ++ y → a.length ≤ x.length := by
  intro x y hxy
  by_contra hlt
  push_neg at hlt
  have hpat : pat ≠ [] := by
    rintro rfl
    rw [occursInB_nil_pat] at h
    exact Bool.noConfusion h
  have hxa : ∃ z, x ++ z = a := by
    apply append_eq_append_of_le x a (pat ++ y) (pat ++ b) ?_ (Nat.le_of_lt hlt)
    simpa [List.append_assoc] using hxy.symm
  obtain ⟨z, rfl⟩ := hxa
  have hz : z ≠ [] := by
    rintro rfl
    simp at hlt
  have hzp : pat ++ y = z ++ (pat ++ b) := by
    have h' := hxy.symm
    simp only [List.append_assoc] at h'
    exact List.append_cancel_left h'
  have hlast := List.dropLast_concat_getLast hpat
  have hform : pat ++ y = (z ++ pat.dropLast) ++ ([pat.getLast hpat] ++ b) := by
    calc pat ++ y = z ++ (pat ++ b) := hzp
    _ = z ++ ((pat.dropLast ++ [pat.getLast hpat]) ++ b) := by rw [hlast]
    _ = (z ++ pat.dropLast) ++ ([pat.getLast hpat] ++ b) := by simp [List.append_assoc]
  have hlen : pat.length ≤ (z ++ pat.dropLast).length := by
    have hz1 : 1 ≤ z.length := by
      cases z with
      | nil => exact absurd rfl hz
      | cons _ _ => simp
    have hd : pat.dropLast.length = pat.length - 1 := List.length_dropLast pat
    have hp1 : 1 ≤ pat.length := by
      cases pat with
      | nil => exact absurd rfl hpat
      | cons _ _ => simp
    simp only [List.length_append]
    omega
  obtain ⟨w, hw⟩ := append_eq_append_of_le pat (z ++ pat.dropLast) _ _ hform hlen
  have hocc : occursInB pat (x ++ z ++ pat.dropLast) = true := by
    rw [occursInB_iff]
    exact ⟨x, w, by simp only [List.append_assoc]; rw [hw]⟩
  rw [hocc] at h
  exact Bool.noConfusion h

theorem replacen1_of_isPrefixOf (pat r s : List Char) (h : pat.isPrefixOf s = true) :
    replacen1 pat r s = r ++ s.drop pat.length := by
  cases s with
  | nil =>
    have hp : pat = [] := by
      cases pat with
      | nil => rfl
      | cons a as => simp at h
    subst hp
    simp [replacen1]
  | cons c rest => simp [replacen1, h]

theorem replacen1_of_not_isPrefixOf (pat r : List Char) (c : Char) (rest : List Char)
    (h : pat.isPrefixOf (c :: rest) = false) :
    replacen1 pat r (c :: rest) = c :: replacen1 pat r rest := by
  simp [replacen1, h]

theorem replacen1_first (pat r : List Char) :
    ∀ a b, (∀ x y, a ++ pat ++ b = x ++ pat ++ y → a.length ≤ x.length) →
      replacen1 pat r (a ++ pat ++ b) = a ++ r ++ b := by
  intro a
  induction a with
  | nil =>
    intro b _
    simp only [List.nil_append]
    have hpre : pat.isPrefixOf (pat ++ b) = true :=
      (isPrefixOf_iff_exists _ _).mpr ⟨b, rfl⟩
    rw [replacen1_of_isPrefixOf _ _ _ hpre, List.drop_left]
  | cons d a' ih =>
    intro b h
    have hnotpre : pat.isPrefixOf ((d :: a') ++ pat ++ b) = false := by
      by_contra hcon
      rw [Bool.not_eq_false, isPrefixOf_iff_exists] at hcon
      obtain ⟨t, ht⟩ := hcon
      have := h [] t (by simpa using ht.symm)
      simp at this
    have tail_eq : replacen1 pat r (a' ++ pat ++ b) = a' ++ r ++ b := by
      apply ih
      intro x y hxy
      have := h (d :: x) y (by simp [hxy])
      simpa using this
    have hcons : (d :: a') ++ pat ++ b = d :: (a' ++ pat ++ b) := by simp
    rw [hcons] at hnotpre
    rw [hcons, replacen1_of_not_isPrefixOf _ _ _ _ hnotpre, tail_eq]
    simp

theorem replacen1_inserts (pat r : List Char) :
    ∀ s, occursInB pat s = true → occursInB r (replacen1 pat r s) = true := by
  intro s
  induction s with
  | nil =>
    intro h
    simp only [occursInB, List.isEmpty_iff] at h
    subst h
    rw [occursInB_iff]
    exact ⟨[], [], by simp [replacen1]⟩
  | cons c rest ih =>
    intro h
    by_cases hp : pat.isPrefixOf (c :: rest) = true
    · rw [replacen1_of_isPrefixOf _ _ _ hp, occursInB_iff]
      exact ⟨[], (c :: rest).drop pat.length, by simp⟩
    · rw [Bool.not_eq_true] at hp
      rw [occursInB, hp] at h
      simp only [Bool.false_or] at h
      rw [replacen1_of_not_isPrefixOf _ _ _ _ hp]
      simp only [occursInB, Bool.or_eq_true]
      exact Or.inr (ih h)

/-! ## Helper lemmas: base64 -/

theorem b64val_b64char_lt : ∀ w < 64, b64val (b64char w) = some w := by decide

theorem b64char_ne_eq (n : Nat) : b64char n ≠ '=' := by
  by_cases h : n < 64
  · exact (by decide : ∀ m < 64, b64char m ≠ '=') n h
  · rw [b64char, List.getD_eq_get?]
    have hlen : b64Alphabet.length ≤ n := by
      have : b64Alphabet.length = 64 := by decide
      omega
    rw [List.get?_eq_none.mpr hlen]
    decide

theorem base64EncodeNopad_chars (bs : List Nat) :
    ∀ ch ∈ base64EncodeNopad bs, ch ≠ '=' := by
  induction bs using base64EncodeNopad.induct with
  | case1 => simp [base64EncodeNopad]
  | case2 a =>
    intro ch hch
    simp only [base64EncodeNopad, List.mem_cons, List.not_mem_nil, or_false] at hch
    rcases hch with rfl | rfl <;> exact b64char_ne_eq _
  | case3 a b =>
    intro ch hch
    simp only [base64EncodeNopad, List.mem_cons, List.not_mem_nil, or_false] at hch
    rcases hch with rfl | rfl | rfl <;> exact b64char_ne_eq _
  | case4 a b c rest ih =>
    intro ch hch
    simp only [base64EncodeNopad, List.mem_cons] at hch
    rcases hch with rfl | rfl | rfl | rfl | hmem
    · exact b64char_ne_eq _
    · exact b64char_ne_eq _
    · exact b64char_ne_eq _
    · exact b64char_ne_eq _
    · exact ih ch hmem

theorem base64EncodeNopad_length (bs : List Nat) :
    (base64EncodeNopad bs).length + (3 - bs.length % 3) % 3 = (bs.length + 2) / 3 * 4 := by
  induction bs using base64EncodeNopad.induct with
  | case1 => rfl
  | case2 a => simp [base64EncodeNopad]
  | case3 a b => simp [base64EncodeNopad]
  | case4 a b c rest ih =>
    simp only [base64EncodeNopad, List.length_cons] at ih ⊢
    omega

theorem base64DecodeNopad_roundtrip (bs : List Nat) (h : ∀ b ∈ bs, b < 256) :
    base64DecodeNopad (base64EncodeNopad bs) = some bs := by
  induction bs using base64EncodeNopad.induct with
  | case1 => rfl
  | case2 a =>
    have ha : a < 256 := h a (by simp)
    have h1 : a / 4 < 64 := by omega
    have h2 : a % 4 * 16 < 64 := by omega
    simp only [base64EncodeNopad, base64DecodeNopad, b64val_b64char_lt _ h1,
      b64val_b64char_lt _ h2]
    rw [if_pos (by omega)]
    have e1 : a / 4 * 4 + a % 4 * 16 / 16 = a := by omega
    rw [e1]
  | case3 a b =>
    have ha : a < 256 := h a (by simp)
    have hb : b < 256 := h b (by simp)
    have h1 : a / 4 < 64 := by omega
    have h2 : a % 4 * 16 + b / 16 < 64 := by omega
    have h3 : b % 16 * 4 < 64 := by omega
    simp only [base64EncodeNopad, base64DecodeNopad, b64val_b64char_lt _ h1,
      b64val_b64char_lt _ h2, b64val_b64char_lt _ h3]
    rw [if_pos (by omega)]
    have e1 : a / 4 * 4 + (a % 4 * 16 + b / 16) / 16 = a := by omega
    have e2 : (a % 4 * 16 + b / 16) % 16 * 16 + b % 16 * 4 / 4 = b := by omega
    rw [e1, e2]
  | case4 a b c rest ih =>
    have ha : a < 256 := h a (by simp)
    have hb : b < 256 := h b (by simp)
    have hc : c < 256 := h c (by simp)
    have ih' := ih fun x hx => h x (by simp [hx])
    have h1 : a / 4 < 64 := by omega
    have h2 : a % 4 * 16 + b / 16 < 64 := by omega
    have h3 : b % 16 * 4 + c / 64 < 64 := by omega
    have h4 : c % 64 < 64 := by omega
    simp only [base64EncodeNopad, base64DecodeNopad, b64val_b64char_lt _ h1,
      b64val_b64char_lt _ h2, b64val_b64char_lt _ h3, b64val_b64char_lt _ h4, ih']
    have e1 : a / 4 * 4 + (a % 4 * 16 + b / 16) / 16 = a := by omega
    have e2 : (a % 4 * 16 + b / 16) % 16 * 16 + (b % 16 * 4 + c / 64) / 4 = b := by omega
    have e3 : (b % 16 * 4 + c / 64) % 4 * 64 + c % 64 = c := by omega
    rw [e1, e2, e3]

theorem dropWhile_replicate_append (p : Char → Bool) (c : Char) (hp : p c = true)
    (k : Nat) (l : List Char) :
    (List.replicate k c ++ l).dropWhile p = l.dropWhile p := by
  induction k with
  | zero => simp
  | succ k ih => simp [List.replicate_succ, List.dropWhile_cons, hp, ih]

theorem dropTrailing_encode (bs : List Nat) (k : Nat) :
    dropTrailing '=' (base64EncodeNopad bs ++ List.replicate k '=') = base64EncodeNopad bs := by
  rw [dropTrailing, List.reverse_append, List.reverse_replicate,
    dropWhile_replicate_append _ '=' (by simp) k]
  cases henc : (base64EncodeNopad bs).reverse with
  | nil =>
    have : base64EncodeNopad bs = [] := by
      have := congrArg List.reverse henc
      simpa using this
    simp [this]
  | cons ch rest =>
    have hch : ch ∈ base64EncodeNopad bs := by
      have : ch ∈ (base64EncodeNopad bs).reverse := by rw [henc]; simp
      simpa using this
    have hne : (ch == '=') = false := beq_eq_false_iff_ne.mpr (base64EncodeNopad_chars bs ch hch)
    rw [List.dropWhile_cons, hne]
    simp only [Bool.false_eq_true, if_false]
    have := congrArg List.reverse henc
    simpa using this.symm

theorem base64Decode_roundtrip (bs : List Nat) (h : ∀ b ∈ bs, b < 256) :
    base64Decode (base64Encode bs) = some bs := by
  have hlen := base64EncodeNopad_length bs
  have hdrop := dropTrailing_encode bs ((3 - bs.length % 3) % 3)
  rw [base64Decode, base64Encode, hdrop]
  rw [if_pos]
  · exact base64DecodeNopad_roundtrip bs h
  · constructor
    · simp only [List.length_append, List.length_replicate]
      omega
    · simp only [List.length_append, List.length_replicate]
      omega

/-! ## Claim theorems and witnesses -/

/-- C1: for every template and source text, `substitute` replaces each of the
three placeholder tokens exactly once — only the designated (first)
occurrence, in the fixed order payload, name, source — so a token repeated
later in the template, or a placeholder-lookalike inside the inserted source
text `s`, appears unmodified in the output.  The hypotheses say the
designated occurrence of each token is its first occurrence at that stage of
the chain (no occurrence starts earlier). -/
theorem substitute_exactly_once (t0 t1 t2 t3 p n s : List Char)
    (hB : occursInB tokB (t0 ++ tokB.dropLast) = false)
    (hN : occursInB tokN (t0 ++ p ++ t1 ++ tokN.dropLast) = false)
    (hS : occursInB tokS (t0 ++ p ++ t1 ++ n ++ t2 ++ tokS.dropLast) = false) :
    substitute (t0 ++ tokB ++ t1 ++ tokN ++ t2 ++ tokS ++ t3) p n s
      = t0 ++ p ++ t1 ++ n ++ t2 ++ s ++ t3 := by
  have h1 := replacen1_first tokB p t0 (t1 ++ (tokN ++ (t2 ++ (tokS ++ t3))))
    (no_early_occ tokB t0 (t1 ++ (tokN ++ (t2 ++ (tokS ++ t3)))) hB)
  have h2 := replacen1_first tokN n (t0 ++ p ++ t1) (t2 ++ (tokS ++ t3))
    (no_early_occ tokN (t0 ++ p ++ t1) (t2 ++ (tokS ++ t3)) hN)
  have h3 := replacen1_first tokS s (t0 ++ p ++ t1 ++ n ++ t2) t3
    (no_early_occ tokS (t0 ++ p ++ t1 ++ n ++ t2) t3 hS)
  simp only [substitute]
  simp only [List.append_assoc] at h1 h2 h3 ⊢
  rw [h1, h2, h3]

/-- Witness for C1: a concrete template with all three tokens (and a repeated
BINARY token in the trailing part), a source text containing a literal
placeholder lookalike; the lookalike and the repeated token survive verbatim. -/
theorem substitute_exactly_once_witness :
    substitute
        ("A".toList ++ tokB ++ "B".toList ++ tokN ++ "C".toList ++ tokS ++
          "D\x7b\x7bBINARY\x7d\x7d".toList)
        ("QUJD".toList) ("binDEADBEEF".toList)
        ("fn main() \x7b\x7d // \x7b\x7bBINARY\x7d\x7d".toList)
      = "A".toList ++ "QUJD".toList ++ "B".toList ++ "binDEADBEEF".toList ++ "C".toList ++
          "fn main() \x7b\x7d // \x7b\x7bBINARY\x7d\x7d".toList ++
          "D\x7b\x7bBINARY\x7d\x7d".toList :=
  substitute_exactly_once _ _ _ _ _ _ _ (by decide) (by decide) (by decide)

/-- C2: for every byte sequence and both dialects, decoding the payload text
the Embedder produces (padded base64 for Python, unpadded for Rust,
src/main.rs:163-167) recovers exactly the original artifact bytes. -/
theorem payload_roundtrip (lang : Language) (bin : List Nat) (h : ∀ b ∈ bin, b < 256) :
    decodeFor lang (encodeFor lang bin) = some bin := by
  cases lang with
  | Rust => exact base64DecodeNopad_roundtrip bin h
  | Python => exact base64Decode_roundtrip bin h

/-- Witness for C2 at concrete byte lists, one per dialect. -/
theorem payload_roundtrip_witness :
    decodeFor Language.Python (encodeFor Language.Python [77, 97, 110, 255])
        = some [77, 97, 110, 255] ∧
    decodeFor Language.Rust (encodeFor Language.Rust [77, 97]) = some [77, 97] :=
  ⟨payload_roundtrip Language.Python _ (by decide),
   payload_roundtrip Language.Rust _ (by decide)⟩

/-! ## Helper lemmas: digest, name derivation, resolution, paths -/

theorem sha256_length (msg : List Nat) : (sha256 msg).length = 32 := by
  simp [sha256, wordBytes]

theorem hexUpperChars_length (bs : List Nat) : (hexUpperChars bs).length = 2 * bs.length := by
  induction bs with
  | nil => rfl
  | cons b rest ih =>
    simp only [hexUpperChars, List.flatMap_cons, List.length_append, List.length_cons,
      List.length_nil] at ih ⊢
    omega

theorem contentId_length (bin : List Nat) : (contentId bin).length = 8 := by
  rw [contentId, List.length_take, hexUpperChars_length, sha256_length]
  omega

theorem hexChar_ne_dot (n : Nat) : hexChar n ≠ '.' := by
  by_cases h : n < 16
  · exact (by decide : ∀ m < 16, hexChar m ≠ '.') n h
  · rw [hexChar, List.getD_eq_get?]
    have hlen : "0123456789ABCDEF".toList.length ≤ n := by
      have : "0123456789ABCDEF".toList.length = 16 := by decide
      omega
    rw [List.get?_eq_none.mpr hlen]
    decide

theorem contentId_ne_dot (bin : List Nat) : ∀ ch ∈ contentId bin, ch ≠ '.' := by
  intro ch hch
  rw [contentId] at hch
  have hmem : ch ∈ hexUpperChars (sha256 bin) := List.mem_of_mem_take hch
  rw [hexUpperChars, List.mem_flatMap] at hmem
  obtain ⟨b, _, hb⟩ := hmem
  simp only [List.mem_cons, List.not_mem_nil, or_false] at hb
  rcases hb with rfl | rfl <;> exact hexChar_ne_dot _

theorem find?_first_of_head_misses (f : Target → Bool) (t : Target) :
    ∀ pre post, (∀ u ∈ pre, f u = false) → f t = true →
      (pre ++ t :: post).find? f = some t := by
  intro pre
  induction pre with
  | nil =>
    intro post _ ht
    simp [List.find?_cons_of_pos _ ht]
  | cons u us ih =>
    intro post hpre ht
    rw [List.cons_append,
      List.find?_cons_of_neg _ (by simp [hpre u (by simp)]),
      ih post (fun v hv => hpre v (by simp [hv])) ht]

theorem getLast?_append_ne (l : List Char) (c : Char) (cs : List Char) :
    (l ++ c :: cs).getLast? = (c :: cs).getLast? := by
  induction l with
  | nil => rfl
  | cons a as ih =>
    cases h : as ++ c :: cs with
    | nil => exact absurd h (by simp)
    | cons d ds =>
      rw [List.cons_append, h, List.getLast?_cons_cons, ← h, ih]

theorem suffix_append_right (l₁ l₂ t : List (List Char)) (h : t <:+ l₂) :
    t <:+ l₁ ++ l₂ := by
  obtain ⟨u, rfl⟩ := h
  exact ⟨l₁ ++ u, by simp [List.append_assoc]⟩

/-- C3: the content identifier computed at src/main.rs:168 is exactly the
first 8 characters of the uppercase hex encoding of the SHA-256 digest of the
artifact bytes, it always consists of exactly 8 characters, and it is
deterministic: equal input bytes yield equal identifiers. -/
theorem contentId_spec (bin bin' : List Nat) (h : bin = bin') :
    contentId bin = (hexUpperChars (sha256 bin)).take 8 ∧
    (contentId bin).length = 8 ∧
    contentId bin = contentId bin' :=
  ⟨rfl, contentId_length bin, by rw [h]⟩

/-- Witness for C3 at the one-byte input `[0]`. -/
theorem contentId_spec_witness :
    contentId [0] = (hexUpperChars (sha256 [0])).take 8 ∧
    (contentId [0]).length = 8 ∧
    contentId [0] = contentId [0] :=
  contentId_spec [0] [0] rfl

/-- C4: the launcher-internal name is `"bin" ++ identifier ++ extension`; it
ends with the literal `.exe` precisely when the third `-`-separated component
of the triple is `"windows"` (src/main.rs:169-174), and for any other third
component — or a triple with fewer than three components — the name is
exactly `"bin" ++ identifier`, with no extension. -/
theorem binName_ext_policy (bin : List Nat) (target : List Char) :
    (".exe".toList <:+ binName bin target ↔
      (splitChar '-' target).get? 2 = some ("windows".toList)) ∧
    ((splitChar '-' target).get? 2 ≠ some ("windows".toList) →
      binName bin target = "bin".toList ++ contentId bin) := by
  constructor
  · constructor
    · intro hsuf
      by_contra hnw
      have hext : extFor target = [] := by rw [extFor, if_neg hnw]
      rw [binName, hext, List.append_nil] at hsuf
      have hdot : '.' ∈ "bin".toList ++ contentId bin := hsuf.subset (by decide)
      rw [List.mem_append] at hdot
      rcases hdot with hd | hd
      · simp at hd
      · exact contentId_ne_dot bin '.' hd rfl
    · intro hw
      rw [binName, extFor, if_pos hw]
      exact List.suffix_append _ _
  · intro hnw
    rw [binName, extFor, if_neg hnw, List.append_nil]

/-- Witness for C4: for the default Linux triple the name is extensionless. -/
theorem binName_ext_policy_witness :
    binName [0] ("x86_64-unknown-linux-gnu".toList) = "bin".toList ++ contentId [0] :=
  (binName_ext_policy [0] ("x86_64-unknown-linux-gnu".toList)).2 (by decide)

/-- C5: when the root package has no target satisfying the resolution
predicate, the pipeline stops with the resolution error and invokes no
external process at all — in particular the build (Compiler stage) is never
invoked (src/main.rs:102-108, 185-188). -/
theorem resolution_failure_no_build (templates : Language → List Char) (cfg : Config)
    (m : Metadata) (w : ExtWorld) (p : Package)
    (hroot : m.root = some p)
    (hnone : ∀ t ∈ p.targets, binMatch cfg t = false) :
    (gen_binary_source templates cfg m w).1 = Except.error PipeError.noBin ∧
    (gen_binary_source templates cfg m w).2 = [] ∧
    ∀ cmd, ExtEvent.buildInvoked cmd ∉ (gen_binary_source templates cfg m w).2 := by
  have hfind : p.targets.find? (binMatch cfg) = none :=
    List.find?_eq_none.mpr fun x hx => by simp [hnone x hx]
  have hgen : gen_binary_source templates cfg m w = (Except.error PipeError.noBin, []) := by
    simp only [gen_binary_source, ctx, hroot, hfind]
  rw [hgen]
  exact ⟨rfl, rfl, by simp⟩

/-- Witness for C5: a workspace whose only target is a library. -/
theorem resolution_failure_no_build_witness :
    (gen_binary_source wTemplates wConfig wNoBinMetadata wWorld).1
        = Except.error PipeError.noBin ∧
    (gen_binary_source wTemplates wConfig wNoBinMetadata wWorld).2 = [] ∧
    ∀ cmd, ExtEvent.buildInvoked cmd ∉ (gen_binary_source wTemplates wConfig wNoBinMetadata wWorld).2 :=
  resolution_failure_no_build wTemplates wConfig wNoBinMetadata wWorld _ rfl (by decide)

/-- C6: with several matching executable units, resolution does not fail on
ambiguity: it succeeds and returns the first match in metadata order
(`Iterator::find` at src/main.rs:102-108). -/
theorem resolution_first_match (cfg : Config) (m : Metadata) (p : Package) (t : Target)
    (pre post : List Target)
    (hroot : m.root = some p) (hts : p.targets = pre ++ t :: post)
    (hpre : ∀ u ∈ pre, binMatch cfg u = false) (ht : binMatch cfg t = true)
    (hmore : ∃ u ∈ post, binMatch cfg u = true) :
    ∃ c, ctx cfg m = Except.ok c ∧ c.bin_name = t.name ∧ c.src_path = t.src_path := by
  have hfind : p.targets.find? (binMatch cfg) = some t := by
    rw [hts]
    exact find?_first_of_head_misses (binMatch cfg) t pre post hpre ht
  exact ⟨{ bin_name := t.name, compile_dir := pathParent p.manifest_path,
           src_path := t.src_path,
           binary_path := pathJoin (pathJoin (pathJoin m.target_directory cfg.target)
             ("release".toList)) t.name },
         by simp only [ctx, hroot, hfind], rfl, rfl⟩

/-- Witness for C6: two bin targets, the first one is resolved. -/
theorem resolution_first_match_witness :
    ∃ c, ctx wConfig wMetadata = Except.ok c ∧ c.bin_name = wBinTarget.name ∧
      c.src_path = wBinTarget.src_path :=
  resolution_first_match wConfig wMetadata _ wBinTarget [] [wBinTarget2] rfl rfl
    (by simp) (by decide) ⟨wBinTarget2, by simp, by decide⟩

/-- C7 counterexample: the `--target` value is an arbitrary string; for the
absolute triple "/a", `Utf8PathBuf::join` discards the accumulated target
directory, so the resolved artifact path is NOT the literal concatenation
`<target dir>/<triple>/release/<name>` even though resolution succeeds. -/
theorem binary_path_not_concat :
    ∃ c, ctx cexConfig cexMetadata = Except.ok c ∧
      c.binary_path ≠ cexMetadata.target_directory ++ "/".toList ++ cexConfig.target ++
        "/release/".toList ++ c.bin_name := by
  refine ⟨_, rfl, ?_⟩
  decide

/-- C7 (amended): the resolved artifact path is the pure derivation
`join(join(join(target_directory, triple), "release"), name)` with no
filesystem probe; it equals the literal concatenation
`<target dir>/<triple>/release/<name>` provided the target directory is
nonempty and has no trailing separator, the triple is nonempty with no
leading or trailing separator, and the unit name has no leading separator
(a component with a leading `/` instead replaces the accumulated path). -/
theorem binary_path_concat (cfg : Config) (m : Metadata) (p : Package) (t : Target)
    (hroot : m.root = some p) (hfind : p.targets.find? (binMatch cfg) = some t)
    (hd1 : m.target_directory ≠ []) (hd2 : m.target_directory.getLast? ≠ some '/')
    (ht1 : cfg.target ≠ []) (ht2 : cfg.target.head? ≠ some '/')
    (ht3 : cfg.target.getLast? ≠ some '/') (hn : t.name.head? ≠ some '/') :
    ∃ c, ctx cfg m = Except.ok c ∧
      c.binary_path = m.target_directory ++ "/".toList ++ cfg.target ++
        "/release/".toList ++ t.name := by
  refine ⟨{ bin_name := t.name, compile_dir := pathParent p.manifest_path,
            src_path := t.src_path,
            binary_path := pathJoin (pathJoin (pathJoin m.target_directory cfg.target)
              ("release".toList)) t.name },
          by simp only [ctx, hroot, hfind], ?_⟩
  have j1 : pathJoin m.target_directory cfg.target
      = m.target_directory ++ '/' :: cfg.target := by
    rw [pathJoin, if_neg ht2, if_neg hd1, if_neg hd2]
  have hlast1 : (m.target_directory ++ '/' :: cfg.target).getLast? ≠ some '/' := by
    rw [getLast?_append_ne]
    cases htg : cfg.target with
    | nil => exact absurd htg ht1
    | cons a as =>
      rw [List.getLast?_cons_cons]
      rw [htg] at ht3
      exact ht3
  have j2 : pathJoin (m.target_directory ++ '/' :: cfg.target) ("release".toList)
      = m.target_directory ++ '/' :: cfg.target ++ '/' :: "release".toList := by
    rw [pathJoin, if_neg (by decide : ¬(("release".toList).head? = some '/')),
      if_neg (by simp), if_neg hlast1]
  have hlast2 : (m.target_directory ++ '/' :: cfg.target ++ '/' :: "release".toList).getLast?
      ≠ some '/' := by
    rw [getLast?_append_ne]
    decide
  have j3 : pathJoin (m.target_directory ++ '/' :: cfg.target ++ '/' :: "release".toList) t.name
      = m.target_directory ++ '/' :: cfg.target ++ '/' :: "release".toList ++ '/' :: t.name := by
    rw [pathJoin, if_neg hn, if_neg (by simp), if_neg hlast2]
  show pathJoin (pathJoin (pathJoin m.target_directory cfg.target) ("release".toList)) t.name = _
  rw [j1, j2, j3]
  have hrel : "/release/".toList = '/' :: ("release".toList ++ ['/']) := by decide
  rw [hrel]
  simp [List.append_assoc]

/-- Witness for C7 (amended) at the default Linux triple. -/
theorem binary_path_concat_witness :
    ∃ c, ctx wConfig wMetadata = Except.ok c ∧
      c.binary_path = wMetadata.target_directory ++ "/".toList ++ wConfig.target ++
        "/release/".toList ++ wBinTarget.name :=
  binary_path_concat wConfig wMetadata _ wBinTarget rfl (by decide) (by decide)
    (by decide) (by decide) (by decide) (by decide) (by decide)

/-- C8: for every configuration of the toolchain, panic and size flags, the
build command always contains the three fixed settings
`codegen-units=1`, `lto=true`, `strip=true`, always requests `--release`
for the configured triple, and ends with `--bin <resolved unit name>`
(src/main.rs:124-146). -/
theorem compile_fixed_flags (cfg : Config) (c : Ctx) :
    "--config=profile.release.codegen-units=1".toList ∈ compileCmd cfg c ∧
    "--config=profile.release.lto=true".toList ∈ compileCmd cfg c ∧
    "--config=profile.release.strip=true".toList ∈ compileCmd cfg c ∧
    "--release".toList ∈ compileCmd cfg c ∧
    ("--target=".toList ++ cfg.target) ∈ compileCmd cfg c ∧
    ["--bin".toList, c.bin_name] <:+ compileCmd cfg c := by
  refine ⟨?_, ?_, ?_, ?_, ?_, ?_⟩
  · simp [compileCmd]
  · simp [compileCmd]
  · simp [compileCmd]
  · simp [compileCmd]
  · simp [compileCmd]
  · exact suffix_append_right _ _ _
      ⟨["--config=profile.release.codegen-units=1".toList,
        "--config=profile.release.lto=true".toList,
        "--config=profile.release.strip=true".toList,
        "--release".toList], rfl⟩

/-- C9: if reading the original source file fails, the Embedder still
succeeds, substituting the literal fallback string "SOURCE CODE NOT FOUND"
for the source placeholder (src/main.rs:175-176); a failure to read the
artifact bytes themselves still aborts the Embedder with an error
(src/main.rs:162).  When the SOURCE_CODE token is present at the final
substitution stage, the fallback text occurs in the output. -/
theorem embed_source_fallback (templates : Language → List Char) (cfg : Config)
    (c : Ctx) (w : ExtWorld) (bin : List Nat)
    (hsrc : w.sourceText = none) :
    (w.binaryBytes = some bin →
      embed templates cfg c w =
        Except.ok (substitute (templates cfg.language) (encodeFor cfg.language bin)
          (binName bin cfg.target) sourceFallback)) ∧
    (w.binaryBytes = none →
      embed templates cfg c w = Except.error PipeError.readBinaryError) ∧
    (w.binaryBytes = some bin →
      occursInB tokS
          (replacen1 tokN (binName bin cfg.target)
            (replacen1 tokB (encodeFor cfg.language bin) (templates cfg.language))) = true →
      ∀ out, embed templates cfg c w = Except.ok out →
        occursInB sourceFallback out = true) := by
  have htrim : rustTrimEnd sourceFallback = sourceFallback := by decide
  have hok : w.binaryBytes = some bin →
      embed templates cfg c w =
        Except.ok (substitute (templates cfg.language) (encodeFor cfg.language bin)
          (binName bin cfg.target) sourceFallback) := by
    intro hb
    rw [embed, hb]
    rw [show sourceOrFallback w = sourceFallback by rw [sourceOrFallback, hsrc]]
    rw [htrim]
  refine ⟨hok, ?_, ?_⟩
  · intro hb
    rw [embed, hb]
  · intro hb hocc out hout
    rw [hok hb] at hout
    have : out = substitute (templates cfg.language) (encodeFor cfg.language bin)
        (binName bin cfg.target) sourceFallback := by
      injection hout.symm
    rw [this, substitute]
    exact replacen1_inserts tokS sourceFallback _ hocc

/-- Witness for C9: a world whose source read fails but whose artifact read
succeeds, with a template made of the three tokens. -/
theorem embed_source_fallback_witness :
    embed wTemplates wConfig wCtx wWorld =
      Except.ok (substitute (wTemplates wConfig.language) (encodeFor wConfig.language [0])
        (binName [0] wConfig.target) sourceFallback) :=
  (embed_source_fallback wTemplates wConfig wCtx wWorld [0] rfl).1 rfl

/-- C10: the launcher-internal file name (prefix, 8-character identifier and
extension) embedded into the output is the same function of the artifact
bytes and the triple for both dialects: dialect selection only changes the
template text and the payload encoding (src/main.rs:157-183). -/
theorem embed_name_dialect_independent (templates : Language → List Char)
    (cfgR cfgP : Config) (c : Ctx) (w : ExtWorld) (bin : List Nat)
    (hb : w.binaryBytes = some bin)
    (hR : cfgR.language = Language.Rust) (hP : cfgP.language = Language.Python)
    (htgt : cfgR.target = cfgP.target) :
    ∃ name : List Char,
      name = "bin".toList ++ contentId bin ++ extFor cfgR.target ∧
      embed templates cfgR c w =
        Except.ok (substitute (templates Language.Rust) (base64EncodeNopad bin) name
          (rustTrimEnd (sourceOrFallback w))) ∧
      embed templates cfgP c w =
        Except.ok (substitute (templates Language.Python) (base64Encode bin) name
          (rustTrimEnd (sourceOrFallback w))) := by
  refine ⟨binName bin cfgR.target, rfl, ?_, ?_⟩
  · rw [embed, hb, hR]
    rfl
  · rw [embed, hb, hP, htgt]
    rfl

/-- Witness for C10: the two dialects over the same artifact byte and triple. -/
theorem embed_name_dialect_independent_witness :
    ∃ name : List Char,
      name = "bin".toList ++ contentId [0] ++ extFor wConfig.target ∧
      embed wTemplates wConfig wCtx wWorld =
        Except.ok (substitute (wTemplates Language.Rust) (base64EncodeNopad [0]) name
          (rustTrimEnd (sourceOrFallback wWorld))) ∧
      embed wTemplates { wConfig with language := Language.Python } wCtx wWorld =
        Except.ok (substitute (wTemplates Language.Python) (base64Encode [0]) name
          (rustTrimEnd (sourceOrFallback wWorld))) :=
  embed_name_dialect_independent wTemplates wConfig
    { wConfig with language := Language.Python } wCtx wWorld [0] rfl rfl rfl rfl

end BinarySource
